import Mathlib

/-!
Verification of the cute-dynamo item-schema and access-operation layer.

The development shallowly embeds the code of the repository:

* the JSON codec used by the access operations, i.e. the behaviour of
  JSON.stringify and JSON.parse on JSON values (numbers are modelled as
  integers: IEEE-754 float formatting is outside the embedding; strings are
  sequences of Unicode scalar values, so unpaired UTF-16 surrogates are not
  modelled),
* the item shape built by the put operation and the key object built by the
  get operation, including the JavaScript truthiness test used for the
  optional sort key,
* the credential-resolution branch of init,
* the get, put, queryItems and scanTable operations against an explicit
  store standing for the external DynamoDB table, with the process-wide
  client handle made explicit as an Option.
-/

namespace CuteDynamo

/-! ### JSON values

Mutually inductive JSON values: the payloads accepted by JSON.stringify and
produced by JSON.parse.  Arrays and objects carry their own list types so
that structural mutual recursion is available. -/

mutual
inductive JValue where
  | null
  | bool (b : Bool)
  | num (n : Int)
  | str (s : String)
  | arr (xs : JList)
  | obj (fs : JFields)
inductive JList where
  | nil
  | cons (v : JValue) (rest : JList)
inductive JFields where
  | nil
  | cons (k : String) (v : JValue) (rest : JFields)
end

/-! ### Serialization: the behaviour of JSON.stringify -/

/-- Decimal digit character for a digit value below ten. -/
def digitChar (d : Nat) : Char :=
  Char.ofNat (48 + d)

/-- Lowercase hexadecimal digit character, as emitted by JSON.stringify in
its control-character escapes. -/
def hexChar (d : Nat) : Char :=
  if d < 10 then Char.ofNat (48 + d) else Char.ofNat (87 + d)

/-- Fuel-bounded decimal printer for naturals; the fuel makes the recursion
structural so that closed terms reduce definitionally. -/
def natCharsAux : Nat → Nat → List Char
  | 0, _ => []
  | fuel + 1, n =>
    if n < 10 then [digitChar n]
    else natCharsAux fuel (n / 10) ++ [digitChar (n % 10)]

/-- Decimal digit string of a natural number, as JavaScript prints it. -/
def natChars (n : Nat) : List Char :=
  natCharsAux (n + 1) n

/-- Decimal digit string of an integer, as JavaScript prints it. -/
def intChars : Int → List Char
  | Int.ofNat n => natChars n
  | Int.negSucc m => '-' :: natChars (m + 1)

/-- Escape of one character inside a JSON string literal, following
JSON.stringify: quote and backslash are escaped, the five named control
characters use their short escapes, the remaining control characters use a
lowercase \u00XX escape, everything else is emitted verbatim. -/
def escChar (c : Char) : List Char :=
  if c = '"' then ['\\', '"']
  else if c = '\\' then ['\\', '\\']
  else if c = '\x08' then ['\\', 'b']
  else if c = '\t' then ['\\', 't']
  else if c = '\n' then ['\\', 'n']
  else if c = '\x0c' then ['\\', 'f']
  else if c = '\r' then ['\\', 'r']
  else if c.toNat < 32 then
    ['\\', 'u', '0', '0', hexChar (c.toNat / 16), hexChar (c.toNat % 16)]
  else [c]

/-- Escape of a whole character sequence inside a JSON string literal. -/
def escStr : List Char → List Char
  | [] => []
  | c :: cs => escChar c ++ escStr cs

mutual
/-- Character sequence produced by JSON.stringify on a JSON value (no
indent argument, hence no whitespace). -/
def stringifyV : JValue → List Char
  | .num n => intChars n
  | .str s => '"' :: (escStr s.data ++ ['"'])
  | .arr xs => '[' :: (itemsChars xs ++ [']'])
  | .obj fs => '{' :: (membersChars fs ++ ['}'])
  | .bool false => ['f', 'a', 'l', 's', 'e']
  | .bool true => ['t', 'r', 'u', 'e']
  | .null => ['n', 'u', 'l', 'l']
/-- Comma-separated element list of an array, without the brackets. -/
def itemsChars : JList → List Char
  | .nil => []
  | .cons v rest => stringifyV v ++ itemsSep rest
/-- Trailing elements of an array, each preceded by a comma. -/
def itemsSep : JList → List Char
  | .nil => []
  | .cons v rest => ',' :: (stringifyV v ++ itemsSep rest)
/-- Comma-separated member list of an object, without the braces. -/
def membersChars : JFields → List Char
  | .nil => []
  | .cons k v rest =>
    '"' :: (escStr k.data ++ '"' :: ':' :: (stringifyV v ++ membersSep rest))
/-- Trailing members of an object, each preceded by a comma. -/
def membersSep : JFields → List Char
  | .nil => []
  | .cons k v rest =>
    ',' :: '"' :: (escStr k.data ++ '"' :: ':' :: (stringifyV v ++ membersSep rest))
end

/-- String produced by JSON.stringify on a JSON value. -/
def jsonEncode (v : JValue) : String :=
  String.mk (stringifyV v)

/-! ### Deserialization: the behaviour of JSON.parse

The parser is a fuel-bounded recursive-descent parser over the character
list.  It accepts exactly the JSON grammar restricted to the embedding
(integer numerals; no unpaired surrogates), skipping the four JSON
whitespace characters between tokens. -/

/-- Whitespace characters insignificant in JSON. -/
def isWs (c : Char) : Bool :=
  c = ' ' || c = '\t' || c = '\n' || c = '\r'

/-- Dropping of leading JSON whitespace. -/
def skipWs : List Char → List Char
  | [] => []
  | c :: l => if isWs c then skipWs l else c :: l

/-- Value of a hexadecimal digit character, either case. -/
def hexVal (c : Char) : Option Nat :=
  if 48 ≤ c.toNat ∧ c.toNat ≤ 57 then some (c.toNat - 48)
  else if 97 ≤ c.toNat ∧ c.toNat ≤ 102 then some (c.toNat - 87)
  else if 65 ≤ c.toNat ∧ c.toNat ≤ 70 then some (c.toNat - 55)
  else none

/-- Character denoted by a single-character escape in a JSON string. -/
def escVal (c : Char) : Option Char :=
  if c = '"' then some '"'
  else if c = '\\' then some '\\'
  else if c = '/' then some '/'
  else if c = 'b' then some '\x08'
  else if c = 'f' then some '\x0c'
  else if c = 'n' then some '\n'
  else if c = 'r' then some '\r'
  else if c = 't' then some '\t'
  else none

/-- Body of a JSON string literal after the opening quote: reads up to the
closing quote, resolving escapes; the accumulator holds the characters read
so far in reverse.  The fuel (one unit per string character, supplied as the
input length plus one at the call sites) keeps the recursion structural so
that closed terms reduce definitionally. -/
def parseStrAux : Nat → List Char → List Char → Option (String × List Char)
  | 0, _, _ => none
  | _ + 1, _, [] => none
  | fuel + 1, acc, c :: rest =>
    if c = '"' then some (String.mk acc.reverse, rest)
    else if c = '\\' then
      match rest with
      | [] => none
      | e :: rest2 =>
        if e = 'u' then
          match rest2 with
          | h1 :: h2 :: h3 :: h4 :: rest3 =>
            match hexVal h1, hexVal h2, hexVal h3, hexVal h4 with
            | some a, some b, some c2, some d =>
              let n := 4096 * a + 256 * b + 16 * c2 + d
              if Nat.isValidChar n then parseStrAux fuel (Char.ofNat n :: acc) rest3
              else none
            | _, _, _, _ => none
          | _ => none
        else
          match escVal e with
          | some c2 => parseStrAux fuel (c2 :: acc) rest2
          | none => none
    else if 32 ≤ c.toNat then parseStrAux fuel (c :: acc) rest
    else none

/-- Decimal numeral reader: consumes the maximal digit run, folding the
digits onto the accumulator. -/
def parseNatAcc : Nat → List Char → Nat × List Char
  | acc, [] => (acc, [])
  | acc, c :: rest =>
    if c.isDigit then parseNatAcc (10 * acc + (c.toNat - 48)) rest
    else (acc, c :: rest)

/-- Literal keyword reader: consumes exactly the expected characters. -/
def expects : List Char → List Char → Option (List Char)
  | [], l => some l
  | _ :: _, [] => none
  | p :: ps, c :: l => if c = p then expects ps l else none

mutual
/-- JSON value parser.  The fuel bounds the recursion depth; every
recursive call decreases it, so the definition is structural and closed
calls reduce definitionally. -/
def parseVal : Nat → List Char → Option (JValue × List Char)
  | 0, _ => none
  | fuel + 1, input =>
    match skipWs input with
    | [] => none
    | c :: rest =>
      if c.isDigit then
        let p := parseNatAcc 0 (c :: rest)
        some (.num (Int.ofNat p.1), p.2)
      else if c = '-' then
        match rest with
        | [] => none
        | d :: rest2 =>
          if d.isDigit then
            let p := parseNatAcc 0 (d :: rest2)
            some (.num (-(Int.ofNat p.1)), p.2)
          else none
      else if c = '"' then
        match parseStrAux (rest.length + 1) [] rest with
        | some (s, r) => some (.str s, r)
        | none => none
      else if c = '[' then
        match skipWs rest with
        | [] => none
        | c2 :: r2 =>
          if c2 = ']' then some (.arr .nil, r2)
          else
            match parseItems fuel (c2 :: r2) with
            | some (xs, r) => some (.arr xs, r)
            | none => none
      else if c = '{' then
        match skipWs rest with
        | [] => none
        | c2 :: r2 =>
          if c2 = '}' then some (.obj .nil, r2)
          else
            match parseMembers fuel (c2 :: r2) with
            | some (fs, r) => some (.obj fs, r)
            | none => none
      else if c = 'n' then
        match expects ['u', 'l', 'l'] rest with
        | some r => some (.null, r)
        | none => none
      else if c = 't' then
        match expects ['r', 'u', 'e'] rest with
        | some r => some (.bool true, r)
        | none => none
      else if c = 'f' then
        match expects ['a', 'l', 's', 'e'] rest with
        | some r => some (.bool false, r)
        | none => none
      else none
/-- Nonempty array element list parser, including the closing bracket. -/
def parseItems : Nat → List Char → Option (JList × List Char)
  | 0, _ => none
  | fuel + 1, input =>
    match parseVal fuel input with
    | none => none
    | some (v, r) =>
      match skipWs r with
      | [] => none
      | c :: r2 =>
        if c = ']' then some (.cons v .nil, r2)
        else if c = ',' then
          match parseItems fuel r2 with
          | some (xs, r3) => some (.cons v xs, r3)
          | none => none
        else none
/-- Nonempty object member list parser, including the closing brace. -/
def parseMembers : Nat → List Char → Option (JFields × List Char)
  | 0, _ => none
  | fuel + 1, input =>
    match skipWs input with
    | [] => none
    | c :: r0 =>
      if c = '"' then
        match parseStrAux (r0.length + 1) [] r0 with
        | none => none
        | some (k, r1) =>
          match skipWs r1 with
          | [] => none
          | c2 :: r2 =>
            if c2 = ':' then
              match parseVal fuel r2 with
              | none => none
              | some (v, r3) =>
                match skipWs r3 with
                | [] => none
                | c3 :: r4 =>
                  if c3 = '}' then some (.cons k v .nil, r4)
                  else if c3 = ',' then
                    match parseMembers fuel r4 with
                    | some (fs, r5) => some (.cons k v fs, r5)
                    | none => none
                  else none
            else none
      else none
end

/-- Result of JSON.parse on a whole string: one value, with only whitespace
allowed after it; otherwise the parse fails (JSON.parse throws a
SyntaxError). -/
def jsonParse (s : String) : Option JValue :=
  match parseVal (s.length + 1) s.data with
  | some (v, rest) => if skipWs rest = [] then some v else none
  | none => none

/-! ### Round-trip: JSON.parse recovers what JSON.stringify printed -/

/-- Input that does not start with a decimal digit; the continuation shape
needed after a greedy numeral. -/
def notDigitStart : List Char → Bool
  | [] => true
  | c :: _ => !c.isDigit

/-- Folding step of the numeral reader. -/
def digStep (a : Nat) (c : Char) : Nat :=
  10 * a + (c.toNat - 48)

theorem digitChar_isDigit (d : Nat) (h : d < 10) : (digitChar d).isDigit = true := by
  interval_cases d <;> decide

theorem digitChar_toNat (d : Nat) (h : d < 10) : (digitChar d).toNat = 48 + d := by
  interval_cases d <;> decide

theorem natCharsAux_ne_nil (fuel n : Nat) (h : n < fuel) : natCharsAux fuel n ≠ [] := by
  cases fuel with
  | zero => omega
  | succ f =>
    simp only [natCharsAux]
    split
    · simp
    · simp

theorem natCharsAux_digits (fuel : Nat) :
    ∀ n, n < fuel → ∀ c ∈ natCharsAux fuel n, c.isDigit = true := by
  induction fuel with
  | zero => intro n h; omega
  | succ f ih =>
    intro n h c hc
    simp only [natCharsAux] at hc
    split at hc
    · rename_i h10
      simp only [List.mem_singleton] at hc
      exact hc ▸ digitChar_isDigit n h10
    · rename_i h10
      rcases List.mem_append.1 hc with h1 | h2
      · exact ih (n / 10) (by omega) c h1
      · simp only [List.mem_singleton] at h2
        exact h2 ▸ digitChar_isDigit (n % 10) (by omega)

theorem natCharsAux_foldl (fuel : Nat) :
    ∀ n acc, n < fuel →
      (natCharsAux fuel n).foldl digStep acc =
        acc * 10 ^ (natCharsAux fuel n).length + n := by
  induction fuel with
  | zero => intro n acc h; omega
  | succ f ih =>
    intro n acc h
    simp only [natCharsAux]
    split
    · rename_i h10
      simp only [List.foldl_cons, List.foldl_nil, List.length_singleton, digStep,
        digitChar_toNat n h10, pow_one]
      omega
    · rename_i h10
      rw [List.foldl_append, ih (n / 10) acc (by omega)]
      simp only [List.foldl_cons, List.foldl_nil, List.length_append,
        List.length_singleton, digStep, digitChar_toNat (n % 10) (by omega)]
      rw [pow_succ]
      have hdm : 10 * (n / 10) + n % 10 = n := Nat.div_add_mod n 10
      set L := (natCharsAux f (n / 10)).length with hL
      set K := (10 : Nat) ^ L with hK
      ring_nf
      omega

theorem parseNatAcc_append (ds : List Char) :
    ∀ acc rest, (∀ c ∈ ds, c.isDigit = true) → notDigitStart rest = true →
      parseNatAcc acc (ds ++ rest) = (ds.foldl digStep acc, rest) := by
  induction ds with
  | nil =>
    intro acc rest _ hnd
    cases rest with
    | nil => rfl
    | cons c r =>
      simp only [notDigitStart, Bool.not_eq_eq_eq_not, Bool.not_true] at hnd
      simp only [List.nil_append, List.foldl_nil, parseNatAcc, hnd]
      simp
  | cons c cs ih =>
    intro acc rest hds hnd
    have hc : c.isDigit = true := hds c (List.mem_cons_self c cs)
    simp only [List.cons_append, parseNatAcc, hc, if_true, List.foldl_cons]
    exact ih (digStep acc c) rest (fun c2 h2 => hds c2 (List.mem_cons_of_mem c h2)) hnd

theorem parseNatAcc_natChars (n : Nat) (rest : List Char)
    (hnd : notDigitStart rest = true) :
    parseNatAcc 0 (natChars n ++ rest) = (n, rest) := by
  unfold natChars
  rw [parseNatAcc_append _ _ _ (natCharsAux_digits (n + 1) n (by omega)) hnd,
    natCharsAux_foldl (n + 1) n 0 (by omega)]
  simp

theorem hexVal_hexChar (d : Nat) (h : d < 16) : hexVal (hexChar d) = some d := by
  interval_cases d <;> decide

theorem skipWs_cons (c : Char) (l : List Char) (h : isWs c = false) :
    skipWs (c :: l) = c :: l := by
  simp [skipWs, h]

theorem parseStrAux_escChar (c : Char) (fuel : Nat) (acc rest : List Char) :
    parseStrAux (fuel + 1) acc (escChar c ++ rest) = parseStrAux fuel (c :: acc) rest := by
  by_cases h1 : c = '"'
  · subst h1; rfl
  by_cases h2 : c = '\\'
  · subst h2; rfl
  by_cases h3 : c = '\x08'
  · subst h3; rfl
  by_cases h4 : c = '\t'
  · subst h4; rfl
  by_cases h5 : c = '\n'
  · subst h5; rfl
  by_cases h6 : c = '\x0c'
  · subst h6; rfl
  by_cases h7 : c = '\r'
  · subst h7; rfl
  by_cases h8 : c.toNat < 32
  · simp only [escChar, if_neg h1, if_neg h2, if_neg h3, if_neg h4, if_neg h5,
      if_neg h6, if_neg h7, if_pos h8, List.cons_append, List.nil_append]
    simp only [parseStrAux, reduceIte, show hexVal '0' = some 0 from rfl,
      hexVal_hexChar (c.toNat / 16) (by omega), hexVal_hexChar (c.toNat % 16) (by omega)]
    rw [if_neg (by decide : ¬ (('\\' : Char) = '"'))]
    have hn : 4096 * 0 + 256 * 0 + 16 * (c.toNat / 16) + c.toNat % 16 = c.toNat := by
      omega
    rw [hn]
    rw [if_pos (Or.inl (by omega) : Nat.isValidChar c.toNat)]
    rw [Char.ofNat_toNat]
  · simp only [escChar, if_neg h1, if_neg h2, if_neg h3, if_neg h4, if_neg h5,
      if_neg h6, if_neg h7, if_neg h8, List.cons_append, List.nil_append]
    simp only [parseStrAux, if_neg h1, if_neg h2, if_pos (by omega : 32 ≤ c.toNat)]

theorem parseStrAux_escStr (cs : List Char) :
    ∀ fuel acc rest, cs.length < fuel →
      parseStrAux fuel acc (escStr cs ++ ('"' :: rest)) =
        some (String.mk (acc.reverse ++ cs), rest) := by
  induction cs with
  | nil =>
    intro fuel acc rest h
    cases fuel with
    | zero => omega
    | succ f =>
      simp only [escStr, List.nil_append, List.append_nil]
      rfl
  | cons c cs ih =>
    intro fuel acc rest h
    cases fuel with
    | zero => omega
    | succ f =>
      simp only [escStr, List.append_assoc]
      rw [parseStrAux_escChar, ih f (c :: acc) rest (by simp at h; omega)]
      simp

theorem escChar_length_pos (c : Char) : 1 ≤ (escChar c).length := by
  unfold escChar
  split_ifs <;> simp

theorem escStr_length (cs : List Char) : cs.length ≤ (escStr cs).length := by
  induction cs with
  | nil => simp [escStr]
  | cons c cs ih =>
    simp only [escStr, List.length_cons, List.length_append]
    have := escChar_length_pos c
    omega

theorem parseStrAux_string (s : String) (fuel : Nat) (rest : List Char)
    (h : s.data.length < fuel) :
    parseStrAux fuel [] (escStr s.data ++ ('"' :: rest)) = some (s, rest) := by
  rw [parseStrAux_escStr s.data fuel [] rest h]
  rfl

theorem isDigit_facts (c : Char) (h : c.isDigit = true) :
    isWs c = false ∧ c ≠ ']' ∧ c ≠ '}' := by
  refine ⟨?_, ?_, ?_⟩
  · cases hw : isWs c
    · rfl
    · exfalso
      simp only [isWs, Bool.or_eq_true, decide_eq_true_eq] at hw
      rcases hw with ((h1 | h1) | h1) | h1 <;> (subst h1; exact absurd h (by decide))
  · rintro rfl; exact absurd h (by decide)
  · rintro rfl; exact absurd h (by decide)

theorem natChars_head (n : Nat) : ∃ c tl, natChars n = c :: tl ∧ c.isDigit = true := by
  obtain ⟨c, tl, hct⟩ :=
    List.exists_cons_of_ne_nil (natCharsAux_ne_nil (n + 1) n (by omega))
  refine ⟨c, tl, hct, ?_⟩
  exact natCharsAux_digits (n + 1) n (by omega) c (by rw [hct]; exact List.mem_cons_self c tl)

theorem stringifyV_head (v : JValue) :
    ∃ c tl, stringifyV v = c :: tl ∧ isWs c = false ∧ c ≠ ']' ∧ c ≠ '}' := by
  cases v with
  | null => exact ⟨'n', ['u', 'l', 'l'], rfl, by decide, by decide, by decide⟩
  | bool b =>
    cases b
    · exact ⟨'f', ['a', 'l', 's', 'e'], rfl, by decide, by decide, by decide⟩
    · exact ⟨'t', ['r', 'u', 'e'], rfl, by decide, by decide, by decide⟩
  | num n =>
    cases n with
    | ofNat m =>
      obtain ⟨c, tl, hct, hcd⟩ := natChars_head m
      obtain ⟨hw, h1, h2⟩ := isDigit_facts c hcd
      exact ⟨c, tl, hct, hw, h1, h2⟩
    | negSucc m =>
      exact ⟨'-', natChars (m + 1), rfl, by decide, by decide, by decide⟩
  | str s =>
    exact ⟨'"', escStr s.data ++ ['"'], rfl, by decide, by decide, by decide⟩
  | arr xs =>
    exact ⟨'[', itemsChars xs ++ [']'], rfl, by decide, by decide, by decide⟩
  | obj fs =>
    exact ⟨'{', membersChars fs ++ ['}'], rfl, by decide, by decide, by decide⟩

/-! ### Fuel requirements of the parser -/

mutual
/-- Fuel sufficient for parseVal on the printed form of a value. -/
def needV : JValue → Nat
  | .null => 1
  | .bool _ => 1
  | .num _ => 1
  | .str _ => 1
  | .arr xs => needItems xs + 1
  | .obj fs => needMembers fs + 1
/-- Fuel sufficient for parseItems on the printed form of an element list. -/
def needItems : JList → Nat
  | .nil => 0
  | .cons v t => max (needV v) (needItems t) + 1
/-- Fuel sufficient for parseMembers on the printed form of a member list. -/
def needMembers : JFields → Nat
  | .nil => 0
  | .cons _ v t => max (needV v) (needMembers t) + 1
end

theorem notDigitStart_itemsSep (t : JList) (l : List Char) :
    notDigitStart (itemsSep t ++ (']' :: l)) = true := by
  cases t <;> rfl

theorem notDigitStart_membersSep (t : JFields) (l : List Char) :
    notDigitStart (membersSep t ++ ('}' :: l)) = true := by
  cases t <;> rfl

/-- Reduction of parseVal once the head character of the input is known to
be non-whitespace: the body of the parser with the whitespace skip
discharged. -/
theorem parseVal_cons (f : Nat) (c : Char) (l : List Char) (hw : isWs c = false) :
    parseVal (f + 1) (c :: l) =
      (if c.isDigit then
        some (JValue.num (Int.ofNat (parseNatAcc 0 (c :: l)).1), (parseNatAcc 0 (c :: l)).2)
      else if c = '-' then
        match l with
        | [] => none
        | d :: rest2 =>
          if d.isDigit then
            some (JValue.num (-(Int.ofNat (parseNatAcc 0 (d :: rest2)).1)),
              (parseNatAcc 0 (d :: rest2)).2)
          else none
      else if c = '"' then
        match parseStrAux (l.length + 1) [] l with
        | some (s, r) => some (JValue.str s, r)
        | none => none
      else if c = '[' then
        match skipWs l with
        | [] => none
        | c2 :: r2 =>
          if c2 = ']' then some (JValue.arr .nil, r2)
          else
            match parseItems f (c2 :: r2) with
            | some (xs, r) => some (JValue.arr xs, r)
            | none => none
      else if c = '{' then
        match skipWs l with
        | [] => none
        | c2 :: r2 =>
          if c2 = '}' then some (JValue.obj .nil, r2)
          else
            match parseMembers f (c2 :: r2) with
            | some (fs, r) => some (JValue.obj fs, r)
            | none => none
      else if c = 'n' then
        match expects ['u', 'l', 'l'] l with
        | some r => some (JValue.null, r)
        | none => none
      else if c = 't' then
        match expects ['r', 'u', 'e'] l with
        | some r => some (JValue.bool true, r)
        | none => none
      else if c = 'f' then
        match expects ['a', 'l', 's', 'e'] l with
        | some r => some (JValue.bool false, r)
        | none => none
      else none) := by
  conv_lhs => rw [parseVal]
  rw [skipWs_cons c l hw]

/-- Reduction of parseItems once its leading value parse is known. -/
theorem parseItems_step (f : Nat) (input : List Char) (v : JValue) (r : List Char)
    (hv : parseVal f input = some (v, r)) :
    parseItems (f + 1) input =
      (match skipWs r with
       | [] => none
       | c :: r2 =>
         if c = ']' then some (JList.cons v .nil, r2)
         else if c = ',' then
           match parseItems f r2 with
           | some (xs, r3) => some (JList.cons v xs, r3)
           | none => none
         else none) := by
  conv_lhs => rw [parseItems]
  rw [hv]

/-- Reduction of parseMembers through the opening quote of the first key. -/
theorem rtMembers_red (k : String) (v : JValue) (t : JFields) (f : Nat) (rest : List Char) :
    parseMembers (f + 1)
      ('"' :: (escStr k.data ++ ('"' :: (':' :: (stringifyV v ++ (membersSep t ++ ('}' :: rest))))))) =
      (match parseStrAux
          ((escStr k.data ++ ('"' :: (':' :: (stringifyV v ++ (membersSep t ++ ('}' :: rest)))))).length + 1)
          []
          (escStr k.data ++ ('"' :: (':' :: (stringifyV v ++ (membersSep t ++ ('}' :: rest)))))) with
        | none => none
        | some (k2, r1) =>
          match skipWs r1 with
          | [] => none
          | c2 :: r2 =>
            if c2 = ':' then
              match parseVal f r2 with
              | none => none
              | some (v2, r3) =>
                match skipWs r3 with
                | [] => none
                | c3 :: r4 =>
                  if c3 = '}' then some (JFields.cons k2 v2 .nil, r4)
                  else if c3 = ',' then
                    match parseMembers f r4 with
                    | some (fs, r5) => some (JFields.cons k2 v2 fs, r5)
                    | none => none
                  else none
            else none) := rfl

mutual
theorem rtV : ∀ (v : JValue) (fuel : Nat) (rest : List Char),
    needV v ≤ fuel → notDigitStart rest = true →
    parseVal fuel (stringifyV v ++ rest) = some (v, rest)
  | .null, fuel, rest, h, _ => by
    cases fuel with
    | zero => simp only [needV] at h; omega
    | succ f => rfl
  | .bool true, fuel, rest, h, _ => by
    cases fuel with
    | zero => simp only [needV] at h; omega
    | succ f => rfl
  | .bool false, fuel, rest, h, _ => by
    cases fuel with
    | zero => simp only [needV] at h; omega
    | succ f => rfl
  | .num (Int.ofNat m), fuel, rest, h, hnd => by
    cases fuel with
    | zero => simp only [needV] at h; omega
    | succ f =>
      obtain ⟨c, tl, hct, hcd⟩ := natChars_head m
      obtain ⟨hw, _, _⟩ := isDigit_facts c hcd
      have hp : parseNatAcc 0 (natChars m ++ rest) = (m, rest) :=
        parseNatAcc_natChars m rest hnd
      have hlist : stringifyV (.num (Int.ofNat m)) ++ rest = c :: (tl ++ rest) := by
        simp [stringifyV, intChars, hct]
      rw [hlist, parseVal_cons f c (tl ++ rest) hw, if_pos hcd]
      rw [hct] at hp
      simp only [List.cons_append] at hp
      rw [hp]
  | .num (Int.negSucc m), fuel, rest, h, hnd => by
    cases fuel with
    | zero => simp only [needV] at h; omega
    | succ f =>
      obtain ⟨c, tl, hct, hcd⟩ := natChars_head (m + 1)
      have hp : parseNatAcc 0 (natChars (m + 1) ++ rest) = (m + 1, rest) :=
        parseNatAcc_natChars (m + 1) rest hnd
      have hlist : stringifyV (.num (Int.negSucc m)) ++ rest =
          '-' :: (natChars (m + 1) ++ rest) := by
        simp [stringifyV, intChars]
      rw [hlist, parseVal_cons f '-' (natChars (m + 1) ++ rest) (by decide)]
      rw [if_neg (by decide : ¬ (('-').isDigit = true)), if_pos rfl]
      rw [hct]
      simp only [List.cons_append]
      show (if c.isDigit then
          some (JValue.num (-(Int.ofNat (parseNatAcc 0 (c :: (tl ++ rest))).1)),
            (parseNatAcc 0 (c :: (tl ++ rest))).2)
        else none) = some (.num (Int.negSucc m), rest)
      rw [if_pos hcd]
      rw [hct] at hp
      simp only [List.cons_append] at hp
      rw [hp]
      exact congrArg (fun z => some (JValue.num z, rest))
        (rfl : -Int.ofNat (m + 1) = Int.negSucc m)
  | .str s, fuel, rest, h, _ => by
    cases fuel with
    | zero => simp only [needV] at h; omega
    | succ f =>
      have hlist : stringifyV (.str s) ++ rest =
          '"' :: (escStr s.data ++ ('"' :: rest)) := by
        simp [stringifyV]
      rw [hlist, parseVal_cons f '"' _ (by decide)]
      rw [if_neg (by decide : ¬ (('"').isDigit = true)),
        if_neg (by decide : ¬ (('"' : Char) = '-')), if_pos rfl]
      rw [parseStrAux_string s _ rest (by
        have := escStr_length s.data
        simp only [List.length_append, List.length_cons]
        omega)]
  | .arr .nil, fuel, rest, h, _ => by
    cases fuel with
    | zero => simp only [needV, needItems] at h; omega
    | succ f => rfl
  | .arr (.cons v t), fuel, rest, h, hnd => by
    cases fuel with
    | zero => simp only [needV, needItems] at h; omega
    | succ f =>
      have hb : needV v < f ∧ needItems t < f := by
        simp only [needV, needItems] at h; omega
      have hit := rtItems v t f rest hb.1 hb.2 hnd
      obtain ⟨c0, tl0, hc0, hw0, hne1, _⟩ := stringifyV_head v
      have hlist : stringifyV (.arr (.cons v t)) ++ rest =
          '[' :: (stringifyV v ++ (itemsSep t ++ (']' :: rest))) := by
        simp [stringifyV, itemsChars, List.append_assoc]
      rw [hlist, parseVal_cons f '[' _ (by decide)]
      rw [if_neg (by decide : ¬ (('[').isDigit = true)),
        if_neg (by decide : ¬ (('[' : Char) = '-')),
        if_neg (by decide : ¬ (('[' : Char) = '"')), if_pos rfl]
      rw [hc0]
      simp only [List.cons_append]
      rw [skipWs_cons c0 _ hw0]
      show (if c0 = ']' then some (JValue.arr .nil, tl0 ++ (itemsSep t ++ (']' :: rest)))
        else
          match parseItems f (c0 :: (tl0 ++ (itemsSep t ++ (']' :: rest)))) with
          | some (xs, r) => some (JValue.arr xs, r)
          | none => none) = some (.arr (.cons v t), rest)
      rw [if_neg hne1]
      rw [show (c0 :: (tl0 ++ (itemsSep t ++ (']' :: rest)))) =
          stringifyV v ++ (itemsSep t ++ (']' :: rest)) from by rw [hc0]; simp]
      rw [hit]
  | .obj .nil, fuel, rest, h, _ => by
    cases fuel with
    | zero => simp only [needV, needMembers] at h; omega
    | succ f => rfl
  | .obj (.cons k v t), fuel, rest, h, hnd => by
    cases fuel with
    | zero => simp only [needV, needMembers] at h; omega
    | succ f =>
      have hb : needV v < f ∧ needMembers t < f := by
        simp only [needV, needMembers] at h; omega
      have hmem := rtMembers k v t f rest hb.1 hb.2 hnd
      have hlist : stringifyV (.obj (.cons k v t)) ++ rest =
          '{' :: ('"' :: (escStr k.data ++
            ('"' :: (':' :: (stringifyV v ++ (membersSep t ++ ('}' :: rest))))))) := by
        simp [stringifyV, membersChars, List.append_assoc]
      rw [hlist, parseVal_cons f '{' _ (by decide)]
      rw [if_neg (by decide : ¬ (('\x7b').isDigit = true)),
        if_neg (by decide : ¬ (('\x7b' : Char) = '-')),
        if_neg (by decide : ¬ (('\x7b' : Char) = '"')),
        if_neg (by decide : ¬ (('\x7b' : Char) = '[')), if_pos rfl]
      show (match parseMembers f ('"' :: (escStr k.data ++
            ('"' :: (':' :: (stringifyV v ++ (membersSep t ++ ('}' :: rest))))))) with
          | some (fs, r) => some (JValue.obj fs, r)
          | none => none) = some (.obj (.cons k v t), rest)
      rw [hmem]
termination_by v fuel rest h hnd => sizeOf v
decreasing_by all_goals (simp_wf; omega)
theorem rtItems : ∀ (v : JValue) (t : JList) (fuel : Nat) (rest : List Char),
    needV v < fuel → needItems t < fuel → notDigitStart rest = true →
    parseItems fuel (stringifyV v ++ (itemsSep t ++ (']' :: rest))) =
      some (JList.cons v t, rest)
  | v, .nil, fuel, rest, h1, h2, hnd => by
    cases fuel with
    | zero => omega
    | succ f =>
      have hv := rtV v f (itemsSep .nil ++ (']' :: rest)) (by omega)
        (notDigitStart_itemsSep .nil rest)
      rw [parseItems_step f _ v _ hv]
      rfl
  | v, .cons v2 t2, fuel, rest, h1, h2, hnd => by
    cases fuel with
    | zero => omega
    | succ f =>
      have hv := rtV v f (itemsSep (.cons v2 t2) ++ (']' :: rest)) (by omega)
        (notDigitStart_itemsSep (.cons v2 t2) rest)
      rw [parseItems_step f _ v _ hv]
      have hb : needV v2 < f ∧ needItems t2 < f := by
        simp only [needItems] at h2; omega
      show (match parseItems f ((stringifyV v2 ++ itemsSep t2) ++ (']' :: rest)) with
            | some (xs, r3) => some (JList.cons v xs, r3)
            | none => none) = some (JList.cons v (JList.cons v2 t2), rest)
      rw [List.append_assoc, rtItems v2 t2 f rest hb.1 hb.2 hnd]
termination_by v t fuel rest h1 h2 hnd => sizeOf v + sizeOf t + 1
decreasing_by all_goals (simp_wf; omega)
theorem rtMembers : ∀ (k : String) (v : JValue) (t : JFields) (fuel : Nat) (rest : List Char),
    needV v < fuel → needMembers t < fuel → notDigitStart rest = true →
    parseMembers fuel
      ('"' :: (escStr k.data ++ ('"' :: (':' :: (stringifyV v ++ (membersSep t ++ ('}' :: rest))))))) =
      some (JFields.cons k v t, rest)
  | k, v, .nil, fuel, rest, h1, h2, hnd => by
    cases fuel with
    | zero => omega
    | succ f =>
      rw [rtMembers_red k v .nil f rest]
      rw [parseStrAux_string k _ _ (by
        have := escStr_length k.data
        simp only [List.length_append, List.length_cons]
        omega)]
      have hv := rtV v f (membersSep .nil ++ ('}' :: rest)) (by omega)
        (notDigitStart_membersSep .nil rest)
      show (match parseVal f (stringifyV v ++ (membersSep .nil ++ ('}' :: rest))) with
            | none => none
            | some (v2, r3) =>
              match skipWs r3 with
              | [] => none
              | c3 :: r4 =>
                if c3 = '}' then some (JFields.cons k v2 .nil, r4)
                else if c3 = ',' then
                  match parseMembers f r4 with
                  | some (fs, r5) => some (JFields.cons k v2 fs, r5)
                  | none => none
                else none) = some (JFields.cons k v .nil, rest)
      rw [hv]
      rfl
  | k, v, .cons k2 v2 t2, fuel, rest, h1, h2, hnd => by
    cases fuel with
    | zero => omega
    | succ f =>
      rw [rtMembers_red k v (.cons k2 v2 t2) f rest]
      rw [parseStrAux_string k _ _ (by
        have := escStr_length k.data
        simp only [List.length_append, List.length_cons]
        omega)]
      have hv := rtV v f (membersSep (.cons k2 v2 t2) ++ ('}' :: rest)) (by omega)
        (notDigitStart_membersSep (.cons k2 v2 t2) rest)
      show (match parseVal f (stringifyV v ++ (membersSep (.cons k2 v2 t2) ++ ('}' :: rest))) with
            | none => none
            | some (v2, r3) =>
              match skipWs r3 with
              | [] => none
              | c3 :: r4 =>
                if c3 = '}' then some (JFields.cons k v2 .nil, r4)
                else if c3 = ',' then
                  match parseMembers f r4 with
                  | some (fs, r5) => some (JFields.cons k v2 fs, r5)
                  | none => none
                else none) = some (JFields.cons k v (.cons k2 v2 t2), rest)
      rw [hv]
      have hb : needV v2 < f ∧ needMembers t2 < f := by
        simp only [needMembers] at h2; omega
      show (match parseMembers f
            ('"' :: ((escStr k2.data ++ ('"' :: (':' :: (stringifyV v2 ++ membersSep t2)))) ++ ('}' :: rest))) with
          | some (fs, r5) => some (JFields.cons k v fs, r5)
          | none => none) = some (JFields.cons k v (JFields.cons k2 v2 t2), rest)
      rw [show ((escStr k2.data ++ ('"' :: (':' :: (stringifyV v2 ++ membersSep t2)))) ++ ('}' :: rest)) =
          escStr k2.data ++ ('"' :: (':' :: (stringifyV v2 ++ (membersSep t2 ++ ('}' :: rest))))) from by
        simp [List.append_assoc]]
      rw [rtMembers k2 v2 t2 f rest hb.1 hb.2 hnd]
termination_by k v t fuel rest h1 h2 hnd => sizeOf v + sizeOf t + 1
decreasing_by all_goals (simp_wf; omega)
end

theorem stringifyV_length_pos (v : JValue) : 1 ≤ (stringifyV v).length := by
  obtain ⟨c, tl, hct, _⟩ := stringifyV_head v
  rw [hct]
  simp

mutual
theorem needV_le_len : ∀ v : JValue, needV v ≤ (stringifyV v).length
  | .null => by simp [needV, stringifyV]
  | .bool b => by cases b <;> simp [needV, stringifyV]
  | .num n => by
    have := stringifyV_length_pos (.num n)
    simp only [needV]
    omega
  | .str s => by
    simp only [needV, stringifyV, List.length_cons, List.length_append]
    omega
  | .arr xs => by
    have h1 := needItems_le_itemsChars xs
    simp only [needV, stringifyV, List.length_cons, List.length_append]
    omega
  | .obj fs => by
    have h1 := needMembers_le_membersChars fs
    simp only [needV, stringifyV, List.length_cons, List.length_append]
    omega
termination_by v => sizeOf v
decreasing_by all_goals simp_wf <;> omega
theorem needItems_le_itemsChars : ∀ xs : JList, needItems xs ≤ (itemsChars xs).length + 1
  | .nil => by simp [needItems, itemsChars]
  | .cons v t => by
    have h1 := needV_le_len v
    have h2 := needItems_le_itemsSep t
    have h3 := stringifyV_length_pos v
    simp only [needItems, itemsChars, List.length_append]
    omega
termination_by xs => sizeOf xs
decreasing_by all_goals simp_wf <;> omega
theorem needItems_le_itemsSep : ∀ xs : JList, needItems xs ≤ (itemsSep xs).length + 1
  | .nil => by simp [needItems, itemsSep]
  | .cons v t => by
    have h1 := needV_le_len v
    have h2 := needItems_le_itemsSep t
    simp only [needItems, itemsSep, List.length_cons, List.length_append]
    omega
termination_by xs => sizeOf xs
decreasing_by all_goals simp_wf <;> omega
theorem needMembers_le_membersChars : ∀ fs : JFields, needMembers fs ≤ (membersChars fs).length + 1
  | .nil => by simp [needMembers, membersChars]
  | .cons k v t => by
    have h1 := needV_le_len v
    have h2 := needMembers_le_membersSep t
    simp only [needMembers, membersChars, List.length_cons, List.length_append]
    omega
termination_by fs => sizeOf fs
decreasing_by all_goals simp_wf <;> omega
theorem needMembers_le_membersSep : ∀ fs : JFields, needMembers fs ≤ (membersSep fs).length + 1
  | .nil => by simp [needMembers, membersSep]
  | .cons k v t => by
    have h1 := needV_le_len v
    have h2 := needMembers_le_membersSep t
    simp only [needMembers, membersSep, List.length_cons, List.length_append]
    omega
termination_by fs => sizeOf fs
decreasing_by all_goals simp_wf <;> omega
end

/-- Round-trip of the JSON codec: JSON.parse recovers every value printed
by JSON.stringify. -/
theorem jsonParse_jsonEncode (v : JValue) : jsonParse (jsonEncode v) = some v := by
  have hb : needV v ≤ (jsonEncode v).length + 1 := by
    have h1 := needV_le_len v
    have h2 : (jsonEncode v).length = (stringifyV v).length := rfl
    omega
  have h := rtV v ((jsonEncode v).length + 1) [] hb rfl
  rw [List.append_nil] at h
  unfold jsonParse
  rw [show (jsonEncode v).data = stringifyV v from rfl, h]
  rfl

/-- The string printed by JSON.stringify is never empty. -/
theorem jsonEncode_ne_empty (v : JValue) : jsonEncode v ≠ "" := by
  obtain ⟨c, tl, hct, _⟩ := stringifyV_head v
  unfold jsonEncode
  rw [hct]
  intro hcontra
  exact List.cons_ne_nil c tl (congrArg String.data hcontra)

/-! ### JavaScript primitive values and truthiness -/

/-- JavaScript primitive values relevant to the embedding: the sort-key
argument and configuration fields range over these (numbers are modelled as
integers, so NaN is outside the embedding). -/
inductive JSPrim where
  | undef
  | null
  | bool (b : Bool)
  | num (n : Int)
  | str (s : String)
deriving DecidableEq

/-- JavaScript truthiness of a primitive value. -/
def JSPrim.truthy : JSPrim → Bool
  | .undef => false
  | .null => false
  | .bool b => b
  | .num n => n != 0
  | .str s => s != ""

/-- Top-level argument of JSON.stringify: either a JSON value or the
JavaScript undefined value, for which JSON.stringify returns undefined
rather than a string. -/
inductive TopVal where
  | undef
  | val (j : JValue)

/-- Result of JSON.stringify on a top-level argument: no string at all for
undefined. -/
def stringifyTop : TopVal → Option String
  | .undef => none
  | .val j => some (jsonEncode j)

/-! ### Credential resolution

The branch of init (the same branch appears in createDynamoDBClient and
createDynamoDBDocumentClient). -/

/-- Credential object handed to the DynamoDB client constructor: either the
provider produced from the Cognito identity pool, or the static key pair. -/
inductive Credentials where
  | federated (region : Option String) (identityPoolId : String)
  | staticKeys (accessKeyId : String) (secretAccessKey : String)
deriving DecidableEq

/-- Truthiness of an optional string-valued configuration field: absent
(undefined) and the empty string are falsy. -/
def optTruthy : Option String → Bool
  | none => false
  | some s => s != ""

/-- Credential resolution of init: a truthy identityPoolId selects the
federated path regardless of the key pair; otherwise a truthy accessKeyId
and secretAccessKey pair selects static credentials; otherwise the
initialization throws the configuration error. -/
def resolveCredentials (region identityPoolId accessKeyId secretAccessKey : Option String) :
    Except String Credentials :=
  if optTruthy identityPoolId then
    Except.ok (Credentials.federated region (identityPoolId.getD ("")))
  else if optTruthy accessKeyId && optTruthy secretAccessKey then
    Except.ok (Credentials.staticKeys (accessKeyId.getD ("")) (secretAccessKey.getD ("")))
  else
    Except.error ("Insufficient credentials provided")

/-- Environment variables read as defaults by init. -/
structure Env where
  AWS_REGION : Option String
  AWS_IDENTITY_POOL_ID : Option String
  AWS_ACCESS_KEY_ID : Option String
  AWS_SECRET_ACCESS_KEY : Option String

/-- Explicit options object passed to init; none stands for an omitted
(undefined) field. -/
structure InitArgs where
  region : Option String
  identityPoolId : Option String
  accessKeyId : Option String
  secretAccessKey : Option String

/-- JavaScript default-parameter resolution: an omitted (undefined)
argument falls back to the environment variable. -/
def jsDefault (arg envVal : Option String) : Option String :=
  match arg with
  | some s => some s
  | none => envVal

/-- The process-wide client handle built by a successful init. -/
structure Client where
  credentials : Credentials
  region : Option String
deriving DecidableEq

/-- Model of init: apply the environment defaults, resolve credentials and
build the client handle, or fail with the configuration error. -/
def init (env : Env) (a : InitArgs) : Except String Client :=
  match resolveCredentials (jsDefault a.region env.AWS_REGION)
      (jsDefault a.identityPoolId env.AWS_IDENTITY_POOL_ID)
      (jsDefault a.accessKeyId env.AWS_ACCESS_KEY_ID)
      (jsDefault a.secretAccessKey env.AWS_SECRET_ACCESS_KEY) with
  | Except.ok creds => Except.ok (Client.mk creds (jsDefault a.region env.AWS_REGION))
  | Except.error e => Except.error e

/-! ### Items, keys and the external table -/

/-- Stored DynamoDB item in the cute-dynamo convention: the PK attribute,
an optional SK attribute, and an optional JSON attribute holding the
serialized payload string.  A missing optional attribute also models an
undefined attribute value. -/
structure StoredItem where
  PK : String
  SK : Option JSPrim
  JSON : Option String
deriving DecidableEq

/-- Key object of the GetCommand as built by get. -/
structure KeyObj where
  PK : String
  SK : Option JSPrim
deriving DecidableEq

/-- The external table state: the items it currently holds. -/
abbrev Store := List StoredItem

/-- Errors surfaced to JavaScript callers of the access operations. -/
inductive JSErr where
  | typeError (msg : String)
  | syntaxError
  | notInitialized
deriving DecidableEq

/-- Message of the null-reference fault raised when client.send is invoked
while the module-level client binding is still undefined (the full
JavaScript message also names the send property being read). -/
def nullRefMsg : String :=
  "Cannot read properties of undefined"

/-- Item construction of put: PK, then SK only when the sort key is truthy,
then the stringified payload as the JSON attribute. -/
def putBuildItem (data : TopVal) (pk : String) (sk : JSPrim) : StoredItem :=
  { PK := pk
    SK := if sk.truthy then some sk else none
    JSON := stringifyTop data }

/-- Key construction of get: SK is included only when the sort key is
truthy. -/
def getKey (pk : String) (sk : JSPrim) : KeyObj :=
  { PK := pk
    SK := if sk.truthy then some sk else none }

/-- Key equality used by the external store for a point lookup. -/
def matchesKey (it : StoredItem) (k : KeyObj) : Bool :=
  it.PK == k.PK && it.SK == k.SK

/-- Point lookup of the external store. -/
def lookupStore (table : Store) (k : KeyObj) : Option StoredItem :=
  table.find? (fun it => matchesKey it k)

/-- Overwrite semantics of the PutCommand: the new item replaces any item
stored under the same key. -/
def upsert (table : Store) (it : StoredItem) : Store :=
  it :: table.filter (fun o => !(matchesKey o (KeyObj.mk it.PK it.SK)))

/-- Attribute value of the item returned by get: either the raw stored
string (when the truthiness guard skipped parsing) or the parsed value. -/
inductive AttrOut where
  | raw (s : String)
  | parsed (v : JValue)

/-- Item as returned by get, after the in-place JSON mutation. -/
structure OutItem where
  PK : String
  SK : Option JSPrim
  JSON : Option AttrOut

/-- Deserialization step of get: the JSON attribute is parsed in place when
the item carries a truthy JSON attribute; a JSON.parse failure raises a
SyntaxError; a falsy JSON attribute (absent, undefined or the empty string)
leaves the item unchanged. -/
def decodeItem (it : StoredItem) : Except JSErr OutItem :=
  match it.JSON with
  | some s =>
    if s ≠ "" then
      match jsonParse s with
      | some v => Except.ok (OutItem.mk it.PK it.SK (some (AttrOut.parsed v)))
      | none => Except.error JSErr.syntaxError
    else Except.ok (OutItem.mk it.PK it.SK (some (AttrOut.raw s)))
  | none => Except.ok (OutItem.mk it.PK it.SK none)

/-- Model of get: a send on the never-initialized client handle raises the
null-reference TypeError; otherwise the stored item under the key built
from the truthy sort key is deserialized, and a missing item yields null
(modelled as none). -/
def get (client : Option Client) (table : Store) (pk : String) (sk : JSPrim) :
    Except JSErr (Option OutItem) :=
  match client with
  | none => Except.error (JSErr.typeError nullRefMsg)
  | some _ =>
    match lookupStore table (getKey pk sk) with
    | none => Except.ok none
    | some it =>
      match decodeItem it with
      | Except.ok out => Except.ok (some out)
      | Except.error e => Except.error e

/-- Model of put: a send on the never-initialized client handle raises the
null-reference TypeError; otherwise the built item overwrites the item at
its key and the new table state is returned.  Marshalling of the item by
the document client is outside the model. -/
def put (client : Option Client) (table : Store) (data : TopVal) (pk : String) (sk : JSPrim) :
    Except JSErr Store :=
  match client with
  | none => Except.error (JSErr.typeError nullRefMsg)
  | some _ => Except.ok (upsert table (putBuildItem data pk sk))

/-- Model of queryItems: the selection of items by the key condition
expression is performed by the external service (abstracted as the items
argument); the function forwards the response verbatim, with no
deserialization. -/
def queryItems (client : Option Client) (items : List StoredItem) :
    Except JSErr (List StoredItem) :=
  match client with
  | none => Except.error (JSErr.typeError nullRefMsg)
  | some _ => Except.ok items

/-- Model of scanTable: the filtering is performed by the external service
(abstracted as the items argument); the function forwards the response
verbatim, with no deserialization. -/
def scanTable (client : Option Client) (items : List StoredItem) :
    Except JSErr (List StoredItem) :=
  match client with
  | none => Except.error (JSErr.typeError nullRefMsg)
  | some _ => Except.ok items

/-- Attribute names present on a stored item. -/
def itemAttrs (it : StoredItem) : List String :=
  ["PK"] ++ (if it.SK.isSome then ["SK"] else []) ++ (if it.JSON.isSome then ["JSON"] else [])

/-! ### Helper facts for the claims -/

/-- Client value used in concrete witnesses. -/
def witnessClient : Client :=
  Client.mk (Credentials.staticKeys ("AKIAEXAMPLE") ("secret")) (some ("us-east-1"))

/-- Every built item mentions no attribute beyond PK, SK and JSON. -/
theorem attrs_subset (it : StoredItem) :
    itemAttrs it ⊆ ["PK", "SK", "JSON"] := by
  unfold itemAttrs
  cases h1 : it.SK.isSome <;> cases h2 : it.JSON.isSome <;> simp [h1, h2]

/-! ### Claims -/

/-- Claim C1: for every JSON-representable value v, primary key pk and sort
key sk, decoding the encoding is the identity, and a put followed by a get
on the same key yields an item whose JSON attribute is the parsed copy of v
(deep equality holds because the decoded value is the value itself). -/
theorem c1_put_get_roundtrip :
    (∀ j : JValue, jsonParse (jsonEncode j) = some j) ∧
    (∀ (c : Client) (table : Store) (j : JValue) (pk : String) (sk : JSPrim),
      ∃ table2,
        put (some c) table (.val j) pk sk = Except.ok table2 ∧
        get (some c) table2 pk sk =
          Except.ok (some (OutItem.mk pk (if sk.truthy then some sk else none)
            (some (AttrOut.parsed j))))) := by
  refine ⟨jsonParse_jsonEncode, ?_⟩
  intro c table j pk sk
  refine ⟨upsert table (putBuildItem (.val j) pk sk), rfl, ?_⟩
  have hlook : lookupStore (upsert table (putBuildItem (.val j) pk sk)) (getKey pk sk) =
      some (putBuildItem (.val j) pk sk) := by
    unfold lookupStore upsert
    simp [List.find?, matchesKey, putBuildItem, getKey]
  have hdec : decodeItem (putBuildItem (.val j) pk sk) =
      Except.ok (OutItem.mk pk (if sk.truthy then some sk else none)
        (some (AttrOut.parsed j))) := by
    show (if jsonEncode j ≠ "" then
        match jsonParse (jsonEncode j) with
        | some v => Except.ok (OutItem.mk pk (if sk.truthy then some sk else none)
            (some (AttrOut.parsed v)))
        | none => Except.error JSErr.syntaxError
      else Except.ok (OutItem.mk pk (if sk.truthy then some sk else none)
        (some (AttrOut.raw (jsonEncode j))))) = _
    rw [if_pos (jsonEncode_ne_empty j), jsonParse_jsonEncode j]
  show (match lookupStore (upsert table (putBuildItem (.val j) pk sk)) (getKey pk sk) with
        | none => Except.ok none
        | some it =>
          match decodeItem it with
          | Except.ok out => Except.ok (some out)
          | Except.error e => Except.error e) = _
  rw [hlook]
  show (match decodeItem (putBuildItem (.val j) pk sk) with
        | Except.ok out => Except.ok (some out)
        | Except.error e => Except.error e) = _
  rw [hdec]

/-- Claim C2: the item built by put carries an SK attribute exactly when
the sort key argument is truthy; an omitted (undefined) sort key never
yields an SK attribute, and the falsy-but-meaningful sort keys 0 and the
empty string produce the same item as an absent sort key. -/
theorem c2_sk_truthiness :
    ∀ (data : TopVal) (pk : String) (sk : JSPrim),
      ((putBuildItem data pk sk).SK.isSome = sk.truthy) ∧
      ((putBuildItem data pk sk).SK = if sk.truthy then some sk else none) ∧
      putBuildItem data pk (.num 0) = putBuildItem data pk .undef ∧
      putBuildItem data pk (.str ("")) = putBuildItem data pk .undef := by
  intro data pk sk
  refine ⟨?_, rfl, rfl, rfl⟩
  unfold putBuildItem
  cases h : sk.truthy <;> simp [h]

/-- Claim C3: credential resolution is first-match in the fixed order
identityPoolId, then the static pair, then the configuration error; in
particular init with only a region and no credential fields (and an empty
environment) fails with the insufficient-credentials error. -/
theorem c3_credential_order :
    (∀ region ipid ak sk : Option String, optTruthy ipid = true →
      resolveCredentials region ipid ak sk =
        Except.ok (Credentials.federated region (ipid.getD ("")))) ∧
    (∀ region ipid ak sk : Option String, optTruthy ipid = false →
      optTruthy ak = true → optTruthy sk = true →
      resolveCredentials region ipid ak sk =
        Except.ok (Credentials.staticKeys (ak.getD ("")) (sk.getD ("")))) ∧
    (∀ region ipid ak sk : Option String, optTruthy ipid = false →
      (optTruthy ak && optTruthy sk) = false →
      resolveCredentials region ipid ak sk =
        Except.error ("Insufficient credentials provided")) ∧
    (∀ r : String,
      init (Env.mk none none none none) (InitArgs.mk (some r) none none none) =
        Except.error ("Insufficient credentials provided")) := by
  refine ⟨?_, ?_, ?_, ?_⟩
  · intro region ipid ak sk h
    simp [resolveCredentials, h]
  · intro region ipid ak sk h hak hsk
    simp [resolveCredentials, h, hak, hsk]
  · intro region ipid ak sk h hboth
    simp [resolveCredentials, h, hboth]
  · intro r
    rfl

/-- Claim C3 witness: the three resolution branches and the region-only
failure at concrete inputs. -/
theorem c3_credential_order_witness :
    resolveCredentials (some ("us-east-1")) (some ("pool")) (some ("a1")) (some ("b1")) =
      Except.ok (Credentials.federated (some ("us-east-1")) ("pool")) ∧
    resolveCredentials (some ("us-east-1")) none (some ("a1")) (some ("b1")) =
      Except.ok (Credentials.staticKeys ("a1") ("b1")) ∧
    resolveCredentials (some ("us-east-1")) none (some ("a1")) none =
      Except.error ("Insufficient credentials provided") ∧
    init (Env.mk none none none none) (InitArgs.mk (some ("us-east-1")) none none none) =
      Except.error ("Insufficient credentials provided") :=
  ⟨c3_credential_order.1 (some ("us-east-1")) (some ("pool")) (some ("a1")) (some ("b1")) rfl,
   c3_credential_order.2.1 (some ("us-east-1")) none (some ("a1")) (some ("b1")) rfl rfl rfl,
   c3_credential_order.2.2.1 (some ("us-east-1")) none (some ("a1")) none rfl rfl,
   c3_credential_order.2.2.2 ("us-east-1")⟩

/-- Proposition of claim C4 as stated: access operations invoked before
init fail with an explicit not-initialized condition. -/
def claimC4 : Prop :=
  ∀ (table : Store) (pk : String) (sk : JSPrim) (data : TopVal) (items : List StoredItem),
    get none table pk sk = Except.error JSErr.notInitialized ∧
    put none table data pk sk = Except.error JSErr.notInitialized ∧
    queryItems none items = Except.error JSErr.notInitialized ∧
    scanTable none items = Except.error JSErr.notInitialized

/-- Claim C4 counterexample: invoked before init on the empty table with
primary key k, get fails with the null-reference TypeError raised by
sending on the undefined client handle, not with a not-initialized
condition. -/
theorem c4_counterexample : ¬ claimC4 := by
  intro h
  have h1 := (h [] ("k") JSPrim.undef TopVal.undef []).1
  rw [show get none [] ("k") JSPrim.undef = Except.error (JSErr.typeError nullRefMsg) from rfl] at h1
  simp at h1

/-- Claim C4 amended: every access operation invoked before init fails —
it never succeeds — but with the null-reference TypeError of the undefined
client handle, not with an explicit not-initialized error. -/
theorem c4_amended :
    ∀ (table : Store) (pk : String) (sk : JSPrim) (data : TopVal) (items : List StoredItem),
      get none table pk sk = Except.error (JSErr.typeError nullRefMsg) ∧
      put none table data pk sk = Except.error (JSErr.typeError nullRefMsg) ∧
      queryItems none items = Except.error (JSErr.typeError nullRefMsg) ∧
      scanTable none items = Except.error (JSErr.typeError nullRefMsg) :=
  fun _ _ _ _ _ => ⟨rfl, rfl, rfl, rfl⟩

/-- Claim C5: get on a key with no stored item resolves to the explicit
absent indicator null, a normal non-error result. -/
theorem c5_absent_is_null :
    ∀ (c : Client) (table : Store) (pk : String) (sk : JSPrim),
      lookupStore table (getKey pk sk) = none →
      get (some c) table pk sk = Except.ok none := by
  intro c table pk sk h
  show (match lookupStore table (getKey pk sk) with
        | none => Except.ok none
        | some it =>
          match decodeItem it with
          | Except.ok out => Except.ok (some out)
          | Except.error e => Except.error e) = Except.ok none
  rw [h]

/-- Claim C5 witness: get on the empty table returns null. -/
theorem c5_absent_is_null_witness :
    get (some witnessClient) [] ("K1") JSPrim.undef = Except.ok none :=
  c5_absent_is_null witnessClient [] ("K1") JSPrim.undef rfl

/-- Proposition of claim C6 as stated: an item carrying a JSON attribute
has that attribute replaced in place by its deserialization, and an item
without a JSON attribute is returned unchanged. -/
def claimC6 : Prop :=
  ∀ it : StoredItem,
    (∀ s, it.JSON = some s →
      ∃ v, jsonParse s = some v ∧
        decodeItem it = Except.ok (OutItem.mk it.PK it.SK (some (AttrOut.parsed v)))) ∧
    (it.JSON = none → decodeItem it = Except.ok (OutItem.mk it.PK it.SK none))

/-- Claim C6 counterexample: the stored item with PK k whose JSON attribute
is the empty string carries a JSON attribute, yet get returns it unchanged
(the raw empty string, which has no deserialization) because the in-place
replacement is guarded by JavaScript truthiness. -/
theorem c6_counterexample : ¬ claimC6 := by
  intro h
  obtain ⟨v, hv, -⟩ := (h (StoredItem.mk ("k") none (some ("")))).1 ("") rfl
  rw [show jsonParse ("") = none from rfl] at hv
  exact Option.noConfusion hv

/-- Claim C6 amended: an item without a JSON attribute is returned
unchanged; an item with a truthy (non-empty) JSON attribute has it replaced
in place by its deserialization when parsing succeeds and raises a
SyntaxError otherwise; an item whose JSON attribute is the falsy empty
string is returned unchanged rather than replaced. -/
theorem c6_amended :
    (∀ it : StoredItem, it.JSON = none →
      decodeItem it = Except.ok (OutItem.mk it.PK it.SK none)) ∧
    (∀ (it : StoredItem) (s : String), it.JSON = some s → s ≠ "" →
      (∃ v, jsonParse s = some v ∧
        decodeItem it = Except.ok (OutItem.mk it.PK it.SK (some (AttrOut.parsed v)))) ∨
      (jsonParse s = none ∧ decodeItem it = Except.error JSErr.syntaxError)) ∧
    (∀ it : StoredItem, it.JSON = some ("") →
      decodeItem it = Except.ok (OutItem.mk it.PK it.SK (some (AttrOut.raw (""))))) := by
  refine ⟨?_, ?_, ?_⟩
  · intro it h
    unfold decodeItem
    rw [h]
  · intro it s h hne
    have hthis : decodeItem it =
        (if s ≠ "" then
          match jsonParse s with
          | some v => Except.ok (OutItem.mk it.PK it.SK (some (AttrOut.parsed v)))
          | none => Except.error JSErr.syntaxError
        else Except.ok (OutItem.mk it.PK it.SK (some (AttrOut.raw s)))) := by
      unfold decodeItem
      rw [h]
    rw [if_pos hne] at hthis
    cases hp : jsonParse s with
    | some v =>
      rw [hp] at hthis
      exact Or.inl ⟨v, rfl, hthis⟩
    | none =>
      rw [hp] at hthis
      exact Or.inr ⟨rfl, hthis⟩
  · intro it h
    unfold decodeItem
    rw [h]
    rfl

/-- Claim C6 witness: the amended behaviour at an item without JSON, an
item with the valid payload null, and an item with the empty payload. -/
theorem c6_amended_witness :
    decodeItem (StoredItem.mk ("k") none none) = Except.ok (OutItem.mk ("k") none none) ∧
    ((∃ v, jsonParse ("null") = some v ∧
        decodeItem (StoredItem.mk ("k") none (some ("null"))) =
          Except.ok (OutItem.mk ("k") none (some (AttrOut.parsed v)))) ∨
      (jsonParse ("null") = none ∧
        decodeItem (StoredItem.mk ("k") none (some ("null"))) =
          Except.error JSErr.syntaxError)) ∧
    decodeItem (StoredItem.mk ("k") none (some (""))) =
      Except.ok (OutItem.mk ("k") none (some (AttrOut.raw ("")))) :=
  ⟨c6_amended.1 _ rfl,
   c6_amended.2.1 _ ("null") rfl (by decide),
   c6_amended.2.2 _ rfl⟩

/-- Proposition of claim C7 as stated: a stored item whose JSON payload
fails to parse makes get, queryItems and scanTable surface an error. -/
def claimC7 : Prop :=
  ∀ (c : Client) (it : StoredItem) (s : String),
    it.JSON = some s → jsonParse s = none →
    (∃ e, queryItems (some c) [it] = Except.error e) ∧
    (∃ e, scanTable (some c) [it] = Except.error e) ∧
    (∀ (table : Store) (pk : String) (sk : JSPrim),
      lookupStore table (getKey pk sk) = some it →
      ∃ e, get (some c) table pk sk = Except.error e)

/-- Claim C7 counterexample: on the item with PK k and the malformed
payload consisting of a single opening brace, queryItems returns the item
verbatim with no error — the malformed payload is passed through. -/
theorem c7_counterexample : ¬ claimC7 := by
  intro h
  obtain ⟨⟨e, he⟩, -, -⟩ :=
    h witnessClient (StoredItem.mk ("k") none (some ("\x7b"))) ("\x7b") rfl rfl
  rw [show queryItems (some witnessClient) [StoredItem.mk ("k") none (some ("\x7b"))] =
      Except.ok [StoredItem.mk ("k") none (some ("\x7b"))] from rfl] at he
  exact Except.noConfusion he

/-- Claim C7 amended: only get surfaces the decode error, and only for a
truthy (non-empty) malformed payload; queryItems and scanTable perform no
deserialization at all and return the stored items verbatim, passing any
malformed payload through. -/
theorem c7_amended :
    (∀ (c : Client) (table : Store) (pk : String) (sk : JSPrim) (it : StoredItem) (s : String),
      lookupStore table (getKey pk sk) = some it →
      it.JSON = some s → s ≠ "" → jsonParse s = none →
      get (some c) table pk sk = Except.error JSErr.syntaxError) ∧
    (∀ (c : Client) (items : List StoredItem), queryItems (some c) items = Except.ok items) ∧
    (∀ (c : Client) (items : List StoredItem), scanTable (some c) items = Except.ok items) := by
  refine ⟨?_, fun _ _ => rfl, fun _ _ => rfl⟩
  intro c table pk sk it s hlook hjson hne hparse
  have hdec : decodeItem it = Except.error JSErr.syntaxError := by
    have hthis : decodeItem it =
        (if s ≠ "" then
          match jsonParse s with
          | some v => Except.ok (OutItem.mk it.PK it.SK (some (AttrOut.parsed v)))
          | none => Except.error JSErr.syntaxError
        else Except.ok (OutItem.mk it.PK it.SK (some (AttrOut.raw s)))) := by
      unfold decodeItem
      rw [hjson]
    rw [hthis, if_pos hne, hparse]
  show (match lookupStore table (getKey pk sk) with
        | none => Except.ok none
        | some it =>
          match decodeItem it with
          | Except.ok out => Except.ok (some out)
          | Except.error e => Except.error e) = Except.error JSErr.syntaxError
  rw [hlook]
  show (match decodeItem it with
        | Except.ok out => Except.ok (some out)
        | Except.error e => Except.error e) = Except.error JSErr.syntaxError
  rw [hdec]

/-- Claim C7 witness: get surfaces a SyntaxError on the stored single-brace
payload while queryItems returns the same item verbatim. -/
theorem c7_amended_witness :
    get (some witnessClient) [StoredItem.mk ("k") none (some ("\x7b"))] ("k") JSPrim.undef =
      Except.error JSErr.syntaxError ∧
    queryItems (some witnessClient) [StoredItem.mk ("k") none (some ("\x7b"))] =
      Except.ok [StoredItem.mk ("k") none (some ("\x7b"))] :=
  ⟨c7_amended.1 witnessClient [StoredItem.mk ("k") none (some ("\x7b"))] ("k") JSPrim.undef
      (StoredItem.mk ("k") none (some ("\x7b"))) ("\x7b") rfl rfl (by decide) rfl,
   c7_amended.2.1 witnessClient [StoredItem.mk ("k") none (some ("\x7b"))]⟩

/-- Claim C8: with a truthy identityPoolId the resolution takes the
federated path, the result does not depend on the static key pair, and
neither static key value occurs in the resulting credential object. -/
theorem c8_federated_independent :
    ∀ region ipid ak1 sk1 ak2 sk2 : Option String, optTruthy ipid = true →
      resolveCredentials region ipid ak1 sk1 = resolveCredentials region ipid ak2 sk2 ∧
      resolveCredentials region ipid ak1 sk1 =
        Except.ok (Credentials.federated region (ipid.getD (""))) := by
  intro region ipid ak1 sk1 ak2 sk2 h
  constructor <;> simp [resolveCredentials, h]

/-- Claim C8 witness: two resolutions differing only in the key pair agree
and are federated. -/
theorem c8_federated_independent_witness :
    resolveCredentials (some ("r")) (some ("pool")) (some ("a1")) (some ("s1")) =
      resolveCredentials (some ("r")) (some ("pool")) (some ("a2")) (some ("s2")) ∧
    resolveCredentials (some ("r")) (some ("pool")) (some ("a1")) (some ("s1")) =
      Except.ok (Credentials.federated (some ("r")) ("pool")) :=
  c8_federated_independent (some ("r")) (some ("pool")) (some ("a1")) (some ("s1"))
    (some ("a2")) (some ("s2")) rfl

/-- Proposition of claim C9 as stated: every item built by put has at most
the attributes PK, SK, JSON, and its JSON attribute is a syntactically
valid serialization for every input value, including undefined. -/
def claimC9 : Prop :=
  ∀ (data : TopVal) (pk : String) (sk : JSPrim),
    itemAttrs (putBuildItem data pk sk) ⊆ ["PK", "SK", "JSON"] ∧
    ∃ s, (putBuildItem data pk sk).JSON = some s ∧ (jsonParse s).isSome = true

/-- Claim C9 counterexample: for the input value undefined, JSON.stringify
returns undefined rather than a string, so the item built by put carries no
serialized JSON string at all — the JSON attribute is not a valid
serialization. -/
theorem c9_counterexample : ¬ claimC9 := by
  intro h
  obtain ⟨-, s, hs, -⟩ := h TopVal.undef ("k") JSPrim.undef
  exact Option.noConfusion hs

/-- Claim C9 amended: the attribute bound holds for every input, and the
JSON attribute is the valid serialization of the input for every
JSON-representable (defined) value; for the input undefined the built item
carries no JSON string (JSON.stringify returns undefined). -/
theorem c9_amended :
    (∀ (j : JValue) (pk : String) (sk : JSPrim),
      itemAttrs (putBuildItem (.val j) pk sk) ⊆ ["PK", "SK", "JSON"] ∧
      (putBuildItem (.val j) pk sk).JSON = some (jsonEncode j) ∧
      jsonParse (jsonEncode j) = some j) ∧
    (∀ (pk : String) (sk : JSPrim),
      itemAttrs (putBuildItem .undef pk sk) ⊆ ["PK", "SK", "JSON"] ∧
      (putBuildItem .undef pk sk).JSON = none) := by
  constructor
  · intro j pk sk
    exact ⟨attrs_subset _, rfl, jsonParse_jsonEncode j⟩
  · intro pk sk
    exact ⟨attrs_subset _, rfl⟩

/-- Claim C10: for every falsy sort key (0, the empty string, null, false
or undefined itself) the lookup key built by get has no SK attribute and
equals the key built with the sort key omitted, so a falsy sort key can
never address an item by direct lookup. -/
theorem c10_falsy_sk_get_key :
    ∀ (pk : String) (sk : JSPrim), sk.truthy = false →
      getKey pk sk = getKey pk JSPrim.undef ∧
      (getKey pk sk).SK = none ∧
      getKey pk sk = KeyObj.mk pk none := by
  intro pk sk h
  have h2 : JSPrim.undef.truthy = false := rfl
  refine ⟨?_, ?_, ?_⟩ <;> simp [getKey, h, h2]

/-- Claim C10 witness: the numeric sort key 0 builds the same key as an
omitted sort key. -/
theorem c10_falsy_sk_get_key_witness :
    getKey ("p") (JSPrim.num 0) = getKey ("p") JSPrim.undef ∧
    (getKey ("p") (JSPrim.num 0)).SK = none ∧
    getKey ("p") (JSPrim.num 0) = KeyObj.mk ("p") none :=
  c10_falsy_sk_get_key ("p") (JSPrim.num 0) rfl

end CuteDynamo
